import Mathlib

/-!
Verification of the bounded-size export pipeline in
`agents-and-function-calling/agent-code-interpreter/00_data_prep.ipynb`.

The notebook has two pieces of real logic:

* `download_nyc_taxi_data(start_date, end_date, data_types)` — a month-stepping
  fetch loop (`current_date += timedelta(days=32); current_date = current_date.replace(day=1)`)
  that downloads one parquet file per (month, category) pair;
* `write_csv_with_size_limit(df, output_file, size_limit_mb)` — a chunked CSV
  writer (chunks of 10000 rows) that measures the output file size after each
  chunk write and stops once the size reaches the configured limit, with a
  catch-all `except` that logs and returns.

Both are embedded below as executable Lean functions.  File contents are
modelled as lists of characters (`Bytes`); sizes are byte counts (the Python
code compares megabyte floats, `size / 2^20 >= size_limit_mb`; we phrase the
threshold directly in bytes).  I/O faults are modelled by a schedule of
booleans carried in the `World` state: an operation whose flag is set raises,
mirroring an `OSError` from `to_csv` or `os.path.getsize`.
-/

namespace DataPrep

/-! ## Bytes and CSV serialization -/

abbrev Bytes := List Char

/-- One CSV record: cells joined by commas, terminated by a newline
(`pandas.to_csv` with `index=False`). -/
def serializeRow (r : List String) : Bytes :=
  (String.intercalate "," r).data ++ ['\n']

/-- Serialization of a sequence of records. -/
def serializeRows : List (List String) → Bytes
  | [] => []
  | r :: rs => serializeRow r ++ serializeRows rs

/-- An in-memory table: a fixed column schema plus ordered rows
(the pandas `DataFrame` consumed by `write_csv_with_size_limit`). -/
structure Table where
  header : List String
  rows : List (List String)

/-- The bytes of the output artifact after the first `e` rows have been
written: the header record once, then rows `0..e`. -/
def csvUpTo (hdr : List String) (rows : List (List String)) (e : Nat) : Bytes :=
  serializeRow hdr ++ serializeRows (rows.take e)

/-! ## The file-system world and its operations -/

/-- Python-level exceptions that `write_csv_with_size_limit` can hit inside its
`try` block. -/
inductive PyError where
  | ioError : PyError
  | fileNotFound : PyError
  | nameErrorEndIndex : PyError
deriving DecidableEq

/-- The state visible to the exporter: the single output file (`none`: the
file does not exist yet) and a schedule of injected I/O faults, one flag
consumed per file operation (`true`: that operation raises). -/
structure World where
  file : Option Bytes
  faults : List Bool
deriving DecidableEq

/-- `chunk.to_csv(output_file, mode=mode, ...)`: mode `'a'` appends
(creating the file if missing), mode `'w'` truncates. -/
def opWrite (w : World) (append : Bool) (s : Bytes) : Except PyError World :=
  if w.faults.headD false then .error .ioError
  else .ok { file := some ((if append then w.file.getD [] else []) ++ s),
             faults := w.faults.tail }

/-- `os.path.getsize(output_file)`: raises if the file does not exist. -/
def opGetSize (w : World) : Except PyError (Nat × World) :=
  if w.faults.headD false then .error .ioError
  else
    match w.file with
    | none => .error .fileNotFound
    | some s => .ok (s.length, { w with faults := w.faults.tail })

/-! ## The chunked export loop

The `while start_index < total_rows` loop of `write_csv_with_size_limit`.
The loop value is the Python variable `end_index`, which is unassigned
(`none`) if the loop body never ran.  `fuel` bounds the number of
iterations; the wrapper passes `rows.length + 1`, which is sufficient
whenever the chunk size is positive (in the notebook it is the constant
10000). -/

def exportLoop (hdr : List String) (rows : List (List String)) (cs limit : Nat) :
    Nat → Nat → Option Nat → World → (Except PyError (Option Nat)) × World
  | 0, _, lastEnd, w => (.ok lastEnd, w)
  | fuel + 1, start, lastEnd, w =>
    if start < rows.length then
      match opWrite w (start != 0)
          ((if start = 0 then serializeRow hdr else []) ++
            serializeRows ((rows.drop start).take (min (start + cs) rows.length - start))) with
      | .error e => (.error e, w)
      | .ok w1 =>
        match opGetSize w1 with
        | .error e => (.error e, w1)
        | .ok (sz, w2) =>
          if limit ≤ sz then (.ok (some (min (start + cs) rows.length)), w2)
          else
            exportLoop hdr rows cs limit fuel (min (start + cs) rows.length)
              (some (min (start + cs) rows.length)) w2
    else (.ok lastEnd, w)

/-- The accounting record logged on the success path: rows written
(`end_index` of the last written chunk), total rows, and final measured
size in bytes. -/
structure Report where
  rowsWritten : Nat
  totalRows : Nat
  finalSize : Nat
deriving DecidableEq

/-- What a call leaves behind for the caller: either the logged accounting
report, or the catch-all `except` branch's error log, which records the
configured limit and the underlying cause.  In both cases the Python
function returns normally. -/
inductive Outcome where
  | ok : Report → Outcome
  | errorLogged : Nat → PyError → Outcome
deriving DecidableEq

/-- `write_csv_with_size_limit` generalized over the chunk size: run the
chunk loop, then measure the final size and log `end_index` of the last
chunk (a `NameError` if the loop never ran); any exception is caught and
turned into an error log carrying the limit and the cause. -/
def exportCsv (hdr : List String) (rows : List (List String)) (cs limit : Nat)
    (w : World) : Outcome × World :=
  match exportLoop hdr rows cs limit (rows.length + 1) 0 none w with
  | (.error e, w1) => (.errorLogged limit e, w1)
  | (.ok lastEnd, w1) =>
    match opGetSize w1 with
    | .error e => (.errorLogged limit e, w1)
    | .ok (sz, w2) =>
      match lastEnd with
      | none => (.errorLogged limit .nameErrorEndIndex, w2)
      | some e => (.ok ⟨e, rows.length, sz⟩, w2)

/-- The notebook's `write_csv_with_size_limit` itself: chunk size is the
hard-coded local constant `chunk_size = 10000`. -/
def write_csv_with_size_limit (tbl : Table) (limitBytes : Nat) (w : World) :
    Outcome × World :=
  exportCsv tbl.header tbl.rows 10000 limitBytes w

/-! ## Calendar dates and the download loop

`download_nyc_taxi_data` iterates `while current_date <= end_date`, and steps
with `current_date += timedelta(days=32); current_date = current_date.replace(day=1)`.
Dates are Gregorian; Python's `datetime` constructor guarantees
`1 <= month <= 12` and `1 <= day <= daysInMonth`, captured by `Date.valid`. -/

def isLeap (y : Nat) : Bool :=
  y % 4 == 0 && (y % 100 != 0 || y % 400 == 0)

def daysInMonth (y m : Nat) : Nat :=
  if m = 2 then (if isLeap y then 29 else 28)
  else if m = 4 ∨ m = 6 ∨ m = 9 ∨ m = 11 then 30
  else 31

structure Date where
  year : Nat
  month : Nat
  day : Nat
deriving DecidableEq

def Date.valid (d : Date) : Prop :=
  1 ≤ d.month ∧ d.month ≤ 12 ∧ 1 ≤ d.day ∧ d.day ≤ daysInMonth d.year d.month

instance (d : Date) : Decidable d.valid := by
  unfold Date.valid; infer_instance

/-- Python `datetime` comparison (midnight timestamps): lexicographic on
(year, month, day). -/
def dateLe (a b : Date) : Bool :=
  if a.year ≠ b.year then decide (a.year < b.year)
  else if a.month ≠ b.month then decide (a.month < b.month)
  else decide (a.day ≤ b.day)

def nextMonth (y m : Nat) : Nat × Nat :=
  if m = 12 then (y + 1, 1) else (y, m + 1)

/-- `current_date + timedelta(days=32)`.  Since 32 exceeds the length of any
month, the sum crosses at least one and (for valid dates) at most two month
boundaries, so two normalization steps suffice. -/
def addDays32 (d : Date) : Date :=
  if d.day + 32 ≤ daysInMonth d.year d.month then
    ⟨d.year, d.month, d.day + 32⟩
  else if d.day + 32 - daysInMonth d.year d.month ≤
      daysInMonth (nextMonth d.year d.month).1 (nextMonth d.year d.month).2 then
    ⟨(nextMonth d.year d.month).1, (nextMonth d.year d.month).2,
      d.day + 32 - daysInMonth d.year d.month⟩
  else
    ⟨(nextMonth (nextMonth d.year d.month).1 (nextMonth d.year d.month).2).1,
      (nextMonth (nextMonth d.year d.month).1 (nextMonth d.year d.month).2).2,
      d.day + 32 - daysInMonth d.year d.month -
        daysInMonth (nextMonth d.year d.month).1 (nextMonth d.year d.month).2⟩

/-- `current_date.replace(day=1)`. -/
def firstOfMonth (d : Date) : Date := ⟨d.year, d.month, 1⟩

/-- One step of the download loop's date variable. -/
def nextLoopDate (d : Date) : Date := firstOfMonth (addDays32 d)

/-- `current_date.strftime('%m')` component: two-digit month. -/
def month2 (m : Nat) : String :=
  if m < 10 then "0" ++ toString m else toString m

/-- `f"{data_type}_tripdata_{current_date.strftime('%Y-%m')}.parquet"`. -/
def fileName (dtype : String) (d : Date) : String :=
  dtype ++ "_tripdata_" ++ toString d.year ++ "-" ++ month2 d.month ++ ".parquet"

def baseUrl : String := "https://d37ci6vzurychx.cloudfront.net/trip-data/"

/-- `f"nyc_taxi_data/{data_type}/{current_date.year}"`. -/
def outputDir (dtype : String) (d : Date) : String :=
  "nyc_taxi_data/" ++ dtype ++ "/" ++ toString d.year

/-- What the fetch has accumulated: local paths of persisted partitions and
recorded failures (file name, HTTP status), both in request order. -/
structure FetchState where
  saved : List String
  failures : List (String × Nat)
deriving DecidableEq

/-- The network as `requests.get` sees it: for a URL, either a transport
error (a raised exception, carrying its message) or an HTTP status code. -/
abbrev Web := String → Except String Nat

/-- One `requests.get` plus the status check.  A transport error propagates:
the notebook has no `try` around the request.  Status 200 persists the file;
any other status records a failure and continues. -/
def fetchOne (web : Web) (dtype : String) (d : Date) (st : FetchState) :
    Except String FetchState :=
  match web (baseUrl ++ fileName dtype d) with
  | .error msg => .error msg
  | .ok status =>
    if status = 200 then
      .ok { st with saved := st.saved ++ [outputDir dtype d ++ "/" ++ fileName dtype d] }
    else
      .ok { st with failures := st.failures ++ [(fileName dtype d, status)] }

/-- The inner `for data_type in data_types` loop. -/
def fetchMonth (web : Web) (dtypes : List String) (d : Date) (st : FetchState) :
    Except String FetchState :=
  match dtypes with
  | [] => .ok st
  | t :: ts =>
    match fetchOne web t d st with
    | .error msg => .error msg
    | .ok st1 => fetchMonth web ts d st1

/-- The outer `while current_date <= end_date` loop, fuel-bounded.  The
wrapper passes fuel that covers every month in range plus the final failing
check, so the zero-fuel branch is never reached on valid inputs. -/
def downloadLoop (web : Web) (dtypes : List String) (endDate : Date) :
    Nat → Date → FetchState → Except String FetchState
  | 0, _, st => .ok st
  | fuel + 1, cur, st =>
    if dateLe cur endDate then
      match fetchMonth web dtypes cur st with
      | .error msg => .error msg
      | .ok st1 => downloadLoop web dtypes endDate fuel (nextLoopDate cur) st1
    else .ok st

def monthIndex (d : Date) : Nat := d.year * 12 + d.month

def download_nyc_taxi_data (startDate endDate : Date) (dtypes : List String)
    (web : Web) : Except String FetchState :=
  downloadLoop web dtypes endDate (monthIndex endDate + 2 - monthIndex startDate)
    startDate ⟨[], []⟩

/-- The months the loop visits, mirroring `downloadLoop`'s control flow. -/
def enumMonths (endDate : Date) : Nat → Date → List Date
  | 0, _ => []
  | fuel + 1, cur =>
    if dateLe cur endDate then cur :: enumMonths endDate fuel (nextLoopDate cur)
    else []

/-- Modelled from the spec: `monthsBetween(start, end)`, the inclusive count
of calendar months from `start`'s month to `end`'s month. -/
def monthsBetween (s e : Date) : Nat := monthIndex e + 1 - monthIndex s

/-- Number of partitions persisted by a fetch result (0 if the call raised). -/
def savedLenOf : Except String FetchState → Nat
  | .ok st => st.saved.length
  | .error _ => 0

/-- Whether fetching (month `d`, category `t`) through `web` yields HTTP 200. -/
def is200 (web : Web) (d : Date) (t : String) : Bool :=
  match web (baseUrl ++ fileName t d) with
  | .ok status => status == 200
  | .error _ => false

/-! ## Helper lemmas: serialization is append-homomorphic -/

lemma serializeRows_append (a b : List (List String)) :
    serializeRows (a ++ b) = serializeRows a ++ serializeRows b := by
  induction a with
  | nil => simp [serializeRows]
  | cons r rs ih => simp [serializeRows, ih]

lemma take_split {α : Type} : ∀ (s e : Nat) (l : List α), s ≤ e →
    l.take e = l.take s ++ (l.drop s).take (e - s)
  | 0, e, l, _ => by simp
  | s + 1, e, [], _ => by simp
  | s + 1, 0, _ :: _, h => by omega
  | s + 1, e + 1, a :: l, h => by
    simp only [List.take_succ_cons, List.drop_succ_cons, Nat.succ_sub_succ,
      List.cons_append, List.cons.injEq, true_and]
    exact take_split s e l (by omega)

lemma csvUpTo_extend (hdr : List String) (rows : List (List String)) {s e : Nat}
    (h : s ≤ e) :
    csvUpTo hdr rows e =
      csvUpTo hdr rows s ++ serializeRows ((rows.drop s).take (e - s)) := by
  unfold csvUpTo
  rw [take_split s e rows h, serializeRows_append, List.append_assoc]

lemma csvUpTo_mono (hdr : List String) (rows : List (List String)) {s e : Nat}
    (h : s ≤ e) : (csvUpTo hdr rows s).length ≤ (csvUpTo hdr rows e).length := by
  rw [csvUpTo_extend hdr rows h]
  simp

/-! ## Helper lemmas: fault-free file operations -/

lemma opWrite_nofault (w : World) (hw : w.faults = []) (ap : Bool) (s : Bytes) :
    opWrite w ap s =
      .ok ⟨some ((if ap then w.file.getD [] else []) ++ s), []⟩ := by
  simp [opWrite, hw]

lemma opGetSize_nofault (b : Bytes) :
    opGetSize ⟨some b, []⟩ = .ok (b.length, ⟨some b, []⟩) := by
  simp [opGetSize]

/-! ## The master characterization of the export loop (fault-free runs) -/

lemma exportLoop_spec (hdr : List String) (rows : List (List String)) (cs limit : Nat)
    (hcs : 0 < cs) :
    ∀ fuel start lastEnd w, rows.length - start < fuel → start < rows.length →
      w.faults = [] → cs ∣ start →
      (start = 0 ∨ w.file = some (csvUpTo hdr rows start)) →
      ∃ e, exportLoop hdr rows cs limit fuel start lastEnd w
          = (.ok (some e), ⟨some (csvUpTo hdr rows e), []⟩)
        ∧ start < e ∧ e ≤ rows.length
        ∧ (cs ∣ e ∨ e = rows.length)
        ∧ (limit ≤ (csvUpTo hdr rows e).length ∨ e = rows.length)
        ∧ ∀ b, start < b → b < e → cs ∣ b → (csvUpTo hdr rows b).length < limit := by
  intro fuel
  induction fuel with
  | zero => intro start lastEnd w hfuel hstart hw hdvd hfile; omega
  | succ f ih =>
    intro start lastEnd w hfuel hstart hw hdvd hfile
    have hmin : start < min (start + cs) rows.length := by omega
    have hminle : min (start + cs) rows.length ≤ rows.length := by omega
    -- the file content after this iteration's chunk write
    have hwrite : opWrite w (start != 0)
        ((if start = 0 then serializeRow hdr else []) ++
          serializeRows ((rows.drop start).take (min (start + cs) rows.length - start)))
        = .ok ⟨some (csvUpTo hdr rows (min (start + cs) rows.length)), []⟩ := by
      by_cases h0 : start = 0
      · subst h0
        rw [opWrite_nofault w hw]
        simp [csvUpTo]
      · have hsome : w.file = some (csvUpTo hdr rows start) := hfile.resolve_left h0
        have hap : (start != 0) = true := by simpa using h0
        rw [opWrite_nofault w hw, hap]
        simp only [if_pos rfl, if_neg h0, hsome, Option.getD_some, if_true,
          List.nil_append]
        rw [← csvUpTo_extend hdr rows (le_of_lt hmin)]
    have hstep : exportLoop hdr rows cs limit (f + 1) start lastEnd w
        = (if limit ≤ (csvUpTo hdr rows (min (start + cs) rows.length)).length then
            ((.ok (some (min (start + cs) rows.length))),
              (⟨some (csvUpTo hdr rows (min (start + cs) rows.length)), []⟩ : World))
          else
            exportLoop hdr rows cs limit f (min (start + cs) rows.length)
              (some (min (start + cs) rows.length))
              ⟨some (csvUpTo hdr rows (min (start + cs) rows.length)), []⟩) := by
      simp only [exportLoop, if_pos hstart, hwrite, opGetSize_nofault]
    by_cases hl : limit ≤ (csvUpTo hdr rows (min (start + cs) rows.length)).length
    · rw [hstep, if_pos hl]
      refine ⟨min (start + cs) rows.length, rfl, hmin, hminle, ?_, Or.inl hl, ?_⟩
      · rcases le_or_lt (start + cs) rows.length with h2 | h2
        · left
          rw [min_eq_left h2]
          exact dvd_add hdvd dvd_rfl
        · right
          omega
      · intro b hb1 hb2 hb3
        exfalso
        have hd : cs ∣ (b - start) := Nat.dvd_sub' hb3 hdvd
        have := Nat.le_of_dvd (by omega) hd
        omega
    · have hsz : (csvUpTo hdr rows (min (start + cs) rows.length)).length < limit := by
        omega
      rw [hstep, if_neg hl]
      by_cases hend : min (start + cs) rows.length = rows.length
      · obtain ⟨f', rfl⟩ : ∃ f', f = f' + 1 := ⟨f - 1, by omega⟩
        rw [hend]
        simp only [exportLoop, lt_irrefl, if_false]
        refine ⟨rows.length, rfl, by omega, le_refl _, Or.inr rfl, Or.inr rfl, ?_⟩
        intro b hb1 hb2 hb3
        exfalso
        have hd : cs ∣ (b - start) := Nat.dvd_sub' hb3 hdvd
        have := Nat.le_of_dvd (by omega) hd
        omega
      · have hlt : min (start + cs) rows.length < rows.length := by omega
        have hmineq : min (start + cs) rows.length = start + cs := by omega
        obtain ⟨e, heq, he1, he2, he3, he4, he5⟩ :=
          ih (min (start + cs) rows.length) (some (min (start + cs) rows.length))
            ⟨some (csvUpTo hdr rows (min (start + cs) rows.length)), []⟩
            (by omega) hlt rfl
            (by rw [hmineq]; exact dvd_add hdvd dvd_rfl) (Or.inr rfl)
        refine ⟨e, heq, by omega, he2, he3, he4, ?_⟩
        intro b hb1 hb2 hb3
        by_cases hble : b ≤ min (start + cs) rows.length
        · have hbe : b = min (start + cs) rows.length := by
            have hd : cs ∣ (b - start) := Nat.dvd_sub' hb3 hdvd
            have := Nat.le_of_dvd (by omega) hd
            omega
          exact hbe ▸ hsz
        · exact he5 b (by omega) hb2 hb3

/-- Fault-free, non-empty-table characterization of `exportCsv`: it reports
`end_index` of the last written chunk, the total row count, and the measured
final size; the artifact is exactly the header plus the first `e` rows;
`e` lands on a chunk boundary or at the end of the table; the loop stopped
either because the size reached the limit or because the rows ran out; and
every earlier chunk boundary was strictly below the limit. -/
lemma exportCsv_spec (hdr : List String) (rows : List (List String)) (cs limit : Nat)
    (hcs : 0 < cs) (hne : rows ≠ []) (w : World) (hw : w.faults = []) :
    ∃ e, exportCsv hdr rows cs limit w
        = (.ok ⟨e, rows.length, (csvUpTo hdr rows e).length⟩,
           ⟨some (csvUpTo hdr rows e), []⟩)
      ∧ 0 < e ∧ e ≤ rows.length
      ∧ (cs ∣ e ∨ e = rows.length)
      ∧ (limit ≤ (csvUpTo hdr rows e).length ∨ e = rows.length)
      ∧ ∀ b, 0 < b → b < e → cs ∣ b → (csvUpTo hdr rows b).length < limit := by
  have hpos : 0 < rows.length := List.length_pos.mpr hne
  obtain ⟨e, heq, h1, h2, h3, h4, h5⟩ :=
    exportLoop_spec hdr rows cs limit hcs (rows.length + 1) 0 none w (by omega) hpos hw
      (dvd_zero cs) (Or.inl rfl)
  refine ⟨e, ?_, h1, h2, h3, h4, h5⟩
  simp only [exportCsv, heq, opGetSize_nofault]

/-- Whatever the fault schedule and initial file contents, if the chunk loop
terminates normally its `end_index` value never exceeds the row count. -/
lemma exportLoop_le (hdr : List String) (rows : List (List String)) (cs limit : Nat) :
    ∀ fuel start lastEnd w r w',
      (∀ v, lastEnd = some v → v ≤ rows.length) →
      exportLoop hdr rows cs limit fuel start lastEnd w = (.ok r, w') →
      ∀ v, r = some v → v ≤ rows.length := by
  intro fuel
  induction fuel with
  | zero =>
    intro start lastEnd w r w' hle h v hv
    simp only [exportLoop, Prod.mk.injEq, Except.ok.injEq] at h
    exact hle v (h.1.trans hv)
  | succ f ih =>
    intro start lastEnd w r w' hle h v hv
    simp only [exportLoop] at h
    split at h
    · split at h
      · simp at h
      · split at h
        · simp at h
        · split at h
          · simp only [Prod.mk.injEq, Except.ok.injEq] at h
            rw [← h.1] at hv
            injection hv with hv
            omega
          · refine ih _ _ _ _ _ ?_ h v hv
            intro u hu
            injection hu with hu
            omega
    · simp only [Prod.mk.injEq, Except.ok.injEq] at h
      exact hle v (h.1.trans hv)

/-- If `start > end`, every amount of fuel makes the download loop return its
input state untouched: no iteration, no I/O, no error. -/
lemma downloadLoop_stop (web : Web) (dtypes : List String) (e : Date) (fuel : Nat)
    (cur : Date) (st : FetchState) (h : dateLe cur e = false) :
    downloadLoop web dtypes e fuel cur st = .ok st := by
  cases fuel with
  | zero => rfl
  | succ f => simp [downloadLoop, h]

/-! ## Date arithmetic of the download loop -/

lemma daysInMonth_ge (y m : Nat) : 28 ≤ daysInMonth y m := by
  unfold daysInMonth
  split_ifs <;> omega

lemma daysInMonth_le (y m : Nat) : daysInMonth y m ≤ 31 := by
  unfold daysInMonth
  split_ifs <;> omega

lemma nextMonth_spec (y m : Nat) (h1 : 1 ≤ m) (h2 : m ≤ 12) :
    1 ≤ (nextMonth y m).2 ∧ (nextMonth y m).2 ≤ 12 ∧
      (nextMonth y m).1 * 12 + (nextMonth y m).2 = y * 12 + m + 1 := by
  unfold nextMonth
  split_ifs with h <;> simp <;> omega

/-- For a valid first-of-month date, one loop step lands on the first of the
next calendar month: the `+32 days, snap to day 1` trick advances the month
index by exactly one. -/
lemma nextLoopDate_spec (d : Date) (hv : d.valid) (h1 : d.day = 1) :
    (nextLoopDate d).valid ∧ (nextLoopDate d).day = 1 ∧
      monthIndex (nextLoopDate d) = monthIndex d + 1 := by
  obtain ⟨hm1, hm2, hd1, hd2⟩ := hv
  have hL2 := daysInMonth_le d.year d.month
  have hL1 := daysInMonth_ge d.year d.month
  have hnext : nextLoopDate d =
      ⟨(nextMonth d.year d.month).1, (nextMonth d.year d.month).2, 1⟩ := by
    unfold nextLoopDate addDays32 firstOfMonth
    rw [h1, if_neg (by omega),
      if_pos (by
        have h28 := daysInMonth_ge (nextMonth d.year d.month).1
          (nextMonth d.year d.month).2
        omega)]
  obtain ⟨hn1, hn2, hn3⟩ := nextMonth_spec d.year d.month hm1 hm2
  have h28n := daysInMonth_ge (nextMonth d.year d.month).1 (nextMonth d.year d.month).2
  rw [hnext]
  refine ⟨?_, rfl, ?_⟩
  · show 1 ≤ (nextMonth d.year d.month).2 ∧ (nextMonth d.year d.month).2 ≤ 12 ∧
        1 ≤ 1 ∧ 1 ≤ daysInMonth (nextMonth d.year d.month).1 (nextMonth d.year d.month).2
    exact ⟨hn1, hn2, le_refl 1, by omega⟩
  · show (nextMonth d.year d.month).1 * 12 + (nextMonth d.year d.month).2
        = d.year * 12 + d.month + 1
    exact hn3

/-- On valid dates, the Python datetime order compares month indices first
and breaks ties on the day. -/
lemma dateLe_iff (a b : Date) (ha : a.valid) (hb : b.valid) :
    dateLe a b = true ↔
      (monthIndex a < monthIndex b ∨ (monthIndex a = monthIndex b ∧ a.day ≤ b.day)) := by
  obtain ⟨ham1, ham2, -, -⟩ := ha
  obtain ⟨hbm1, hbm2, -, -⟩ := hb
  unfold dateLe monthIndex
  split_ifs with h1 h2 <;> simp only [decide_eq_true_eq] <;> omega

/-- Month count of the enumeration when the range starts on the first of a
month: exactly the inclusive number of calendar months in range. -/
lemma enumMonths_length (e : Date) (he : e.valid) :
    ∀ n cur, cur.valid → cur.day = 1 → monthIndex e + 2 - monthIndex cur ≤ n →
      (enumMonths e n cur).length = monthIndex e + 1 - monthIndex cur := by
  intro n
  induction n with
  | zero =>
    intro cur hv h1 hfuel
    simp only [enumMonths, List.length_nil]
    omega
  | succ f ih =>
    intro cur hv h1 hfuel
    by_cases hle : dateLe cur e = true
    · obtain ⟨hvn, h1n, hmi⟩ := nextLoopDate_spec cur hv h1
      have hcurle : monthIndex cur ≤ monthIndex e := by
        rcases (dateLe_iff cur e hv he).mp hle with h | ⟨h, -⟩ <;> omega
      simp only [enumMonths, hle, if_true, List.length_cons]
      rw [ih (nextLoopDate cur) hvn h1n (by omega), hmi]
      omega
    · have hfalse : dateLe cur e = false := by
        simpa using hle
      have hgt : monthIndex e < monthIndex cur := by
        by_contra hng
        have hede : 1 ≤ e.day := he.2.2.1
        have : dateLe cur e = true := by
          refine (dateLe_iff cur e hv he).mpr ?_
          rcases Nat.lt_or_ge (monthIndex cur) (monthIndex e) with h | h
          · exact Or.inl h
          · exact Or.inr ⟨by omega, by omega⟩
        rw [this] at hfalse
        cases hfalse
      simp only [enumMonths, hfalse]
      simp
      omega

/-! ## Counting fetch outcomes when the network always answers -/

lemma countP_not_add (l : List String) (p : String → Bool) :
    l.countP p + l.countP (fun t => ! p t) = l.length := by
  induction l with
  | nil => simp
  | cons a l ih =>
    by_cases h : p a = true <;> simp [List.countP_cons, h] <;> omega

lemma sum_countP_split (l : List Date) (dtypes : List String)
    (p : Date → String → Bool) :
    ((l.map fun d => dtypes.countP (fun t => p d t)).sum
      + (l.map fun d => dtypes.countP (fun t => ! p d t)).sum)
      = l.length * dtypes.length := by
  induction l with
  | nil => simp
  | cons d l ih =>
    simp only [List.map_cons, List.sum_cons, List.length_cons]
    have h := countP_not_add dtypes (fun t => p d t)
    rw [Nat.succ_mul]
    omega

/-- When every request gets an HTTP answer (no transport error), one month's
inner loop returns normally, appending one saved path per 200 status and one
failure record per non-200 status. -/
lemma fetchMonth_no_transport (web : Web) (hweb : ∀ u, ∃ s, web u = .ok s)
    (d : Date) :
    ∀ (ts : List String) (st : FetchState), ∃ st1,
      fetchMonth web ts d st = .ok st1
      ∧ st1.saved.length = st.saved.length + ts.countP (fun t => is200 web d t)
      ∧ st1.failures.length = st.failures.length
          + ts.countP (fun t => ! is200 web d t) := by
  intro ts
  induction ts with
  | nil =>
    intro st
    exact ⟨st, rfl, by simp [List.countP_nil], by simp [List.countP_nil]⟩
  | cons t ts ih =>
    intro st
    obtain ⟨status, hst⟩ := hweb (baseUrl ++ fileName t d)
    by_cases h200 : status = 200
    · subst h200
      have hp : is200 web d t = true := by simp [is200, hst]
      obtain ⟨st1, hrun, hs, hf⟩ :=
        ih { st with saved := st.saved ++ [outputDir t d ++ "/" ++ fileName t d] }
      refine ⟨st1, ?_, ?_, ?_⟩
      · simp only [fetchMonth, fetchOne, hst, if_pos rfl]
        exact hrun
      · rw [hs, List.countP_cons, hp]
        simp
        omega
      · rw [hf, List.countP_cons, hp]
        simp
    · have hp : is200 web d t = false := by
        simp [is200, hst]
        omega
      obtain ⟨st1, hrun, hs, hf⟩ :=
        ih { st with failures := st.failures ++ [(fileName t d, status)] }
      refine ⟨st1, ?_, ?_, ?_⟩
      · simp only [fetchMonth, fetchOne, hst, if_neg h200]
        exact hrun
      · rw [hs, List.countP_cons, hp]
        simp
      · rw [hf, List.countP_cons, hp]
        simp
        omega

/-- When every request gets an HTTP answer, the whole range fetch returns
normally and its saved/failure records account for every enumerated
(month, category) pair. -/
lemma downloadLoop_no_transport (web : Web) (dtypes : List String) (e : Date)
    (hweb : ∀ u, ∃ s, web u = .ok s) :
    ∀ fuel cur st, ∃ fs, downloadLoop web dtypes e fuel cur st = .ok fs
      ∧ fs.saved.length = st.saved.length +
          ((enumMonths e fuel cur).map
            (fun d => dtypes.countP (fun t => is200 web d t))).sum
      ∧ fs.failures.length = st.failures.length +
          ((enumMonths e fuel cur).map
            (fun d => dtypes.countP (fun t => ! is200 web d t))).sum := by
  intro fuel
  induction fuel with
  | zero =>
    intro cur st
    exact ⟨st, rfl, by simp [enumMonths], by simp [enumMonths]⟩
  | succ f ih =>
    intro cur st
    by_cases hle : dateLe cur e = true
    · obtain ⟨st1, hrun, hs, hf⟩ := fetchMonth_no_transport web hweb cur dtypes st
      obtain ⟨fs, hrun2, hs2, hf2⟩ := ih (nextLoopDate cur) st1
      refine ⟨fs, ?_, ?_, ?_⟩
      · simp only [downloadLoop, hle, if_true]
        rw [hrun]
        exact hrun2
      · rw [hs2, hs]
        simp only [enumMonths, hle, if_true, List.map_cons, List.sum_cons]
        omega
      · rw [hf2, hf]
        simp only [enumMonths, hle, if_true, List.map_cons, List.sum_cons]
        omega
    · have hfalse : dateLe cur e = false := by simpa using hle
      refine ⟨st, downloadLoop_stop web dtypes e (f + 1) cur st hfalse, ?_, ?_⟩
      · simp [enumMonths, hfalse]
      · simp [enumMonths, hfalse]

/-! ## Claims about the exporter -/

/-- Claim C1: the size check is post-hoc — after each chunk write the sink's
cumulative size is measured and the loop stops as soon as it is `≥ limit`,
so a table whose first chunk (header plus `cs` rows) already serializes to
`≥ limit` yields `rowsWritten = cs` (one full chunk, not zero), the final
artifact being exactly that first chunk, whose size may exceed the limit. -/
theorem c1_first_chunk_crossing (hdr : List String) (rows : List (List String))
    (cs limit : Nat) (w : World) (hcs : 0 < cs) (hlen : cs ≤ rows.length)
    (hlim : limit ≤ (csvUpTo hdr rows cs).length) (hw : w.faults = []) :
    exportCsv hdr rows cs limit w
      = (.ok ⟨cs, rows.length, (csvUpTo hdr rows cs).length⟩,
         ⟨some (csvUpTo hdr rows cs), []⟩) := by
  have hne : rows ≠ [] := by
    intro h0
    rw [h0] at hlen
    simp at hlen
    omega
  obtain ⟨e, heq, h1, h2, h3, h4, h5⟩ :=
    exportCsv_spec hdr rows cs limit hcs hne w hw
  have hecs : e = cs := by
    rcases Nat.lt_trichotomy e cs with h | h | h
    · rcases h3 with hd | hl
      · have := Nat.le_of_dvd h1 hd
        omega
      · omega
    · exact h
    · have := h5 cs hcs h dvd_rfl
      omega
  rw [hecs] at heq
  exact heq

theorem c1_witness :
    0 < 2 ∧ 2 ≤ List.length [["1"], ["2"], ["3"]] ∧
      1 ≤ (csvUpTo ["h"] [["1"], ["2"], ["3"]] 2).length ∧
      exportCsv ["h"] [["1"], ["2"], ["3"]] 2 1 ⟨none, []⟩
        = (.ok ⟨2, 3, (csvUpTo ["h"] [["1"], ["2"], ["3"]] 2).length⟩,
           ⟨some (csvUpTo ["h"] [["1"], ["2"], ["3"]] 2), []⟩) :=
  ⟨by decide, by decide, by decide,
    c1_first_chunk_crossing ["h"] [["1"], ["2"], ["3"]] 2 1 ⟨none, []⟩
      (by decide) (by decide) (by decide) rfl⟩

/-- Claim C2: when the limit strictly exceeds the size of the fully
serialized table, every chunk is written (the last possibly shorter) and
`rowsWritten = totalRows`, the artifact holding the entire table. -/
theorem c2_full_export (hdr : List String) (rows : List (List String))
    (cs limit : Nat) (w : World) (hcs : 0 < cs) (hne : rows ≠ [])
    (hfull : (csvUpTo hdr rows rows.length).length < limit) (hw : w.faults = []) :
    exportCsv hdr rows cs limit w
      = (.ok ⟨rows.length, rows.length, (csvUpTo hdr rows rows.length).length⟩,
         ⟨some (csvUpTo hdr rows rows.length), []⟩) := by
  obtain ⟨e, heq, h1, h2, h3, h4, h5⟩ :=
    exportCsv_spec hdr rows cs limit hcs hne w hw
  have he : e = rows.length := by
    rcases h4 with hcross | h
    · have := csvUpTo_mono hdr rows h2
      omega
    · exact h
  rw [he] at heq
  exact heq

theorem c2_witness :
    0 < 1 ∧ ([["1"]] : List (List String)) ≠ [] ∧
      (csvUpTo ["h"] [["1"]] 1).length < 100 ∧
      exportCsv ["h"] [["1"]] 1 100 ⟨none, []⟩
        = (.ok ⟨1, 1, (csvUpTo ["h"] [["1"]] 1).length⟩,
           ⟨some (csvUpTo ["h"] [["1"]] 1), []⟩) :=
  ⟨by decide, by decide, by decide,
    c2_full_export ["h"] [["1"]] 1 100 ⟨none, []⟩ (by decide) (by decide)
      (by decide) rfl⟩

/-- Claim C5: whatever happens inside the export — including injected I/O
faults on any write or size measurement — the call returns normally: either
the catch-all branch logged the configured limit together with the
underlying cause, or a report was produced whose accounting satisfies
`rowsWritten ≤ totalRows`, so truncation is observable from the report. -/
theorem c5_failures_caught_and_logged (hdr : List String) (rows : List (List String))
    (cs limit : Nat) (w : World) :
    (∃ c, (exportCsv hdr rows cs limit w).1 = .errorLogged limit c) ∨
    (∃ r, (exportCsv hdr rows cs limit w).1 = .ok r ∧
      r.totalRows = rows.length ∧ r.rowsWritten ≤ r.totalRows) := by
  unfold exportCsv
  cases hL : exportLoop hdr rows cs limit (rows.length + 1) 0 none w with
  | mk res w1 =>
    cases res with
    | error e => exact Or.inl ⟨e, rfl⟩
    | ok lastEnd =>
      dsimp only
      cases hG : opGetSize w1 with
      | error e =>
        exact Or.inl ⟨e, rfl⟩
      | ok p =>
        cases p with
        | mk sz w2 =>
          dsimp only
          cases lastEnd with
          | none => exact Or.inl ⟨.nameErrorEndIndex, rfl⟩
          | some v =>
            refine Or.inr ⟨⟨v, rows.length, sz⟩, rfl, rfl, ?_⟩
            exact exportLoop_le hdr rows cs limit _ _ _ _ _ _
              (fun u hu => by simp at hu) hL v rfl

/-- Claim C6: on a fault-free run over a non-empty table, the reported
`rowsWritten` is the end index of the last chunk actually written — the
artifact is exactly the header plus that many rows — it never exceeds the
total row count, and it is a multiple of the chunk size unless the final,
possibly shorter last chunk of the table was the one written. -/
theorem c6_rows_written_is_chunk_boundary (hdr : List String)
    (rows : List (List String)) (cs limit : Nat) (w : World) (hcs : 0 < cs)
    (hne : rows ≠ []) (hw : w.faults = []) :
    ∃ e, exportCsv hdr rows cs limit w
        = (.ok ⟨e, rows.length, (csvUpTo hdr rows e).length⟩,
           ⟨some (csvUpTo hdr rows e), []⟩)
      ∧ e ≤ rows.length ∧ (cs ∣ e ∨ e = rows.length) := by
  obtain ⟨e, heq, h1, h2, h3, h4, h5⟩ :=
    exportCsv_spec hdr rows cs limit hcs hne w hw
  exact ⟨e, heq, h2, h3⟩

theorem c6_witness :
    0 < 2 ∧ ([["1"], ["2"], ["3"]] : List (List String)) ≠ [] ∧
      (∃ e, exportCsv ["h"] [["1"], ["2"], ["3"]] 2 100 ⟨none, []⟩
          = (.ok ⟨e, 3, (csvUpTo ["h"] [["1"], ["2"], ["3"]] e).length⟩,
             ⟨some (csvUpTo ["h"] [["1"], ["2"], ["3"]] e), []⟩)
        ∧ e ≤ 3 ∧ (2 ∣ e ∨ e = 3)) :=
  ⟨by decide, by decide,
    c6_rows_written_is_chunk_boundary ["h"] [["1"], ["2"], ["3"]] 2 100 ⟨none, []⟩
      (by decide) (by decide) rfl⟩

/-- Claim C7: on a fault-free run over a non-empty table, if the export
stopped early (`rowsWritten < totalRows`) the reported final size is
`≥ limit`; a final size `< limit` forces `rowsWritten = totalRows`; and the
chunk that was written last is the first whose write pushed the cumulative
size past the limit — every earlier chunk boundary measured strictly below
it. -/
theorem c7_early_stop_at_first_crossing (hdr : List String)
    (rows : List (List String)) (cs limit : Nat) (w : World) (hcs : 0 < cs)
    (hne : rows ≠ []) (hw : w.faults = []) :
    ∃ e, exportCsv hdr rows cs limit w
        = (.ok ⟨e, rows.length, (csvUpTo hdr rows e).length⟩,
           ⟨some (csvUpTo hdr rows e), []⟩)
      ∧ (e < rows.length → limit ≤ (csvUpTo hdr rows e).length)
      ∧ ((csvUpTo hdr rows e).length < limit → e = rows.length)
      ∧ ∀ b, 0 < b → b < e → cs ∣ b → (csvUpTo hdr rows b).length < limit := by
  obtain ⟨e, heq, h1, h2, h3, h4, h5⟩ :=
    exportCsv_spec hdr rows cs limit hcs hne w hw
  refine ⟨e, heq, ?_, ?_, h5⟩
  · intro hlt
    rcases h4 with h | h
    · exact h
    · omega
  · intro hsz
    rcases h4 with h | h
    · omega
    · exact h

theorem c7_witness :
    0 < 2 ∧ ([["1"], ["2"], ["3"]] : List (List String)) ≠ [] ∧
      (∃ e, exportCsv ["h"] [["1"], ["2"], ["3"]] 2 5 ⟨none, []⟩
          = (.ok ⟨e, 3, (csvUpTo ["h"] [["1"], ["2"], ["3"]] e).length⟩,
             ⟨some (csvUpTo ["h"] [["1"], ["2"], ["3"]] e), []⟩)
        ∧ (e < 3 → 5 ≤ (csvUpTo ["h"] [["1"], ["2"], ["3"]] e).length)
        ∧ ((csvUpTo ["h"] [["1"], ["2"], ["3"]] e).length < 5 → e = 3)
        ∧ ∀ b, 0 < b → b < e → 2 ∣ b →
            (csvUpTo ["h"] [["1"], ["2"], ["3"]] b).length < 5) :=
  ⟨by decide, by decide,
    c7_early_stop_at_first_crossing ["h"] [["1"], ["2"], ["3"]] 2 5 ⟨none, []⟩
      (by decide) (by decide) rfl⟩

/-- Claim C8: the exporter is a pure function of its inputs, so two calls
with identical inputs on fresh (empty) sinks leave byte-identical artifacts;
and on a fresh sink the artifact is the header preamble written exactly
once, followed by the first `e` rows appended in order without a repeated
preamble. -/
theorem c8_idempotent_on_fresh_sink (hdr : List String) (rows : List (List String))
    (cs limit : Nat) (hcs : 0 < cs) :
    exportCsv hdr rows cs limit ⟨none, []⟩ = exportCsv hdr rows cs limit ⟨none, []⟩
    ∧ (rows ≠ [] → ∃ e, 0 < e ∧
        exportCsv hdr rows cs limit ⟨none, []⟩
          = (.ok ⟨e, rows.length, (csvUpTo hdr rows e).length⟩,
             ⟨some (serializeRow hdr ++ serializeRows (rows.take e)), []⟩)) := by
  refine ⟨rfl, fun hne => ?_⟩
  obtain ⟨e, heq, h1, -⟩ := exportCsv_spec hdr rows cs limit hcs hne ⟨none, []⟩ rfl
  exact ⟨e, h1, heq⟩

theorem c8_witness :
    0 < 2 ∧
      (exportCsv ["h"] [["1"]] 2 9 ⟨none, []⟩ = exportCsv ["h"] [["1"]] 2 9 ⟨none, []⟩
      ∧ (([["1"]] : List (List String)) ≠ [] → ∃ e, 0 < e ∧
          exportCsv ["h"] [["1"]] 2 9 ⟨none, []⟩
            = (.ok ⟨e, 1, (csvUpTo ["h"] [["1"]] e).length⟩,
               ⟨some (serializeRow ["h"] ++ serializeRows ([["1"]].take e)), []⟩))) :=
  ⟨by decide, c8_idempotent_on_fresh_sink ["h"] [["1"]] 2 9 (by decide)⟩

/-- Claim C9 counterexample: with the invalid budget `limitBytes = 0` the
exporter does not fail fast — it writes the first chunk to the sink (the
file comes into existence: I/O happened) and returns a normal report. -/
theorem c9_counterexample :
    exportCsv ["h"] [["1"]] 1 0 ⟨none, []⟩
      = (.ok ⟨1, 1, 4⟩, ⟨some ('h' :: '\n' :: '1' :: '\n' :: []), []⟩) := by
  decide

/-- Claim C9 (amended): no configuration validation is performed anywhere.
A range with `start > end` makes the fetch loop run zero iterations and
return silently — no I/O, but also no failure; and a non-positive byte
limit does not prevent I/O: the exporter still writes its first chunk and
returns a normal report. -/
theorem c9_amended_no_fail_fast :
    (∀ s e dtypes web, dateLe s e = false →
        download_nyc_taxi_data s e dtypes web = .ok ⟨[], []⟩) ∧
    (∀ hdr rows cs (w : World), 0 < cs → rows ≠ [] → w.faults = [] →
        ∃ rep, exportCsv hdr rows cs 0 w
            = (.ok rep, ⟨some (csvUpTo hdr rows rep.rowsWritten), []⟩)
          ∧ 0 < rep.rowsWritten) := by
  constructor
  · intro s e dtypes web h
    exact downloadLoop_stop web dtypes e _ s ⟨[], []⟩ h
  · intro hdr rows cs w hcs hne hw
    obtain ⟨e, heq, h1, -⟩ := exportCsv_spec hdr rows cs 0 hcs hne w hw
    exact ⟨⟨e, rows.length, (csvUpTo hdr rows e).length⟩, heq, h1⟩

theorem c9_witness :
    download_nyc_taxi_data ⟨2024, 2, 1⟩ ⟨2024, 1, 1⟩ ["yellow"] (fun _ => .ok 200)
        = .ok ⟨[], []⟩
    ∧ (∃ rep, exportCsv ["h"] [["1"]] 1 0 ⟨none, []⟩
          = (.ok rep, ⟨some (csvUpTo ["h"] [["1"]] rep.rowsWritten), []⟩)
        ∧ 0 < rep.rowsWritten) :=
  ⟨c9_amended_no_fail_fast.1 ⟨2024, 2, 1⟩ ⟨2024, 1, 1⟩ ["yellow"] (fun _ => .ok 200)
      (by decide),
    c9_amended_no_fail_fast.2 ["h"] [["1"]] 1 ⟨none, []⟩ (by decide) (by decide) rfl⟩

/-- Claim C10 counterexample: on an empty table with a fresh sink the
swallowed exception is `os.path.getsize` failing on the never-created file,
not the unbound-variable error on `end_index` the claim names — that line is
never reached because the size measurement precedes it. -/
theorem c10_counterexample :
    exportCsv ["h"] [] 5 10 ⟨none, []⟩ = (.errorLogged 10 .fileNotFound, ⟨none, []⟩)
    ∧ (PyError.fileNotFound ≠ PyError.nameErrorEndIndex) := by
  exact ⟨by decide, by decide⟩

/-- Claim C10 (amended): on an empty table the loop writes nothing, so with
a fresh sink no file is ever created and the final accounting fails at the
size measurement (file not found), swallowed by the catch-all, returning
normally with no report; the `end_index` unbound-variable error occurs
instead when the output file already exists; and on every table with at
least one row (fault-free) the accounting is reached with `end_index`
defined, producing a report. -/
theorem c10_amended_empty_table :
    (∀ hdr cs limit, exportCsv hdr [] cs limit ⟨none, []⟩
        = (.errorLogged limit .fileNotFound, ⟨none, []⟩)) ∧
    (∀ hdr cs limit s, exportCsv hdr [] cs limit ⟨some s, []⟩
        = (.errorLogged limit .nameErrorEndIndex, ⟨some s, []⟩)) ∧
    (∀ hdr rows cs limit (w : World), 0 < cs → rows ≠ [] → w.faults = [] →
        ∃ rep, (exportCsv hdr rows cs limit w).1 = .ok rep) := by
  refine ⟨fun hdr cs limit => rfl, fun hdr cs limit s => rfl,
    fun hdr rows cs limit w hcs hne hw => ?_⟩
  obtain ⟨e, heq, -⟩ := exportCsv_spec hdr rows cs limit hcs hne w hw
  rw [heq]
  exact ⟨_, rfl⟩

theorem c10_witness :
    0 < 1 ∧ ([["1"], ["2"]] : List (List String)) ≠ [] ∧
      ∃ rep, (exportCsv ["h"] [["1"], ["2"]] 1 3 ⟨none, []⟩).1 = .ok rep :=
  ⟨by decide, by decide,
    c10_amended_empty_table.2.2 ["h"] [["1"], ["2"]] 1 3 ⟨none, []⟩
      (by decide) (by decide) rfl⟩

/-! ## Claims about the fetch loop -/

/-- Claim C3 counterexample: the month step is `+32 days, snap to day 1`,
so it is not independent of the endpoints' day-of-month.  Starting at
2023-01-31 with end 2023-03-01 and one category, the loop visits January
and March only — February is skipped (Jan 31 + 32 days = Mar 4) — so 2
partitions are fetched although `monthsBetween` counts 3 months. -/
theorem c3_counterexample :
    savedLenOf (download_nyc_taxi_data ⟨2023, 1, 31⟩ ⟨2023, 3, 1⟩ ["yellow"]
        (fun _ => .ok 200)) = 2
    ∧ monthsBetween ⟨2023, 1, 31⟩ ⟨2023, 3, 1⟩ * List.length ["yellow"] = 3
    ∧ savedLenOf (download_nyc_taxi_data ⟨2023, 1, 31⟩ ⟨2023, 3, 1⟩ ["yellow"]
        (fun _ => .ok 200))
      ≠ monthsBetween ⟨2023, 1, 31⟩ ⟨2023, 3, 1⟩ * List.length ["yellow"] := by
  exact ⟨by decide, by decide, by decide⟩

/-- Claim C3 (amended): when the range's start falls on the first of a month
(as in the notebook, which uses `datetime(2024, 1, 1)`), the fetch
enumerates exactly `monthsBetween(start, end) * |categories|` (month,
category) pairs, inclusive of both endpoint months, with correct year
rollover, and a single-month range iterates exactly once; the count is
witnessed by the saved-plus-failure records when every request yields an
HTTP response.  For a start day late in the month the first `+32 days` step
can skip the following month, so the general claim fails. -/
theorem c3_amended_month_enumeration (s e : Date) (dtypes : List String)
    (web : Web) (hs : s.valid) (he : e.valid) (hday : s.day = 1)
    (hle : dateLe s e = true) (hweb : ∀ u, ∃ st, web u = .ok st) :
    ∃ fs, download_nyc_taxi_data s e dtypes web = .ok fs
      ∧ fs.saved.length + fs.failures.length = monthsBetween s e * dtypes.length := by
  obtain ⟨fs, hrun, hsv, hfl⟩ := downloadLoop_no_transport web dtypes e hweb
    (monthIndex e + 2 - monthIndex s) s ⟨[], []⟩
  refine ⟨fs, hrun, ?_⟩
  have hsum := sum_countP_split (enumMonths e (monthIndex e + 2 - monthIndex s) s)
    dtypes (is200 web)
  have hlen := enumMonths_length e he (monthIndex e + 2 - monthIndex s) s hs hday
    (le_refl _)
  have hmb : monthsBetween s e = monthIndex e + 1 - monthIndex s := rfl
  rw [hsv, hfl, hmb, ← hlen]
  simp only [List.length_nil, Nat.zero_add]
  omega

theorem c3_witness :
    Date.valid ⟨2023, 12, 1⟩ ∧ Date.valid ⟨2024, 1, 1⟩ ∧
      (∃ fs, download_nyc_taxi_data ⟨2023, 12, 1⟩ ⟨2024, 1, 1⟩ ["yellow"]
          (fun _ => .ok 200) = .ok fs
        ∧ fs.saved.length + fs.failures.length
            = monthsBetween ⟨2023, 12, 1⟩ ⟨2024, 1, 1⟩ * List.length ["yellow"]) :=
  ⟨by decide, by decide,
    c3_amended_month_enumeration ⟨2023, 12, 1⟩ ⟨2024, 1, 1⟩ ["yellow"]
      (fun _ => .ok 200) (by decide) (by decide) rfl (by decide)
      (fun _ => ⟨200, rfl⟩)⟩

/-- Claim C4 counterexample: a transport error is not caught — `requests.get`
raising aborts the whole range fetch.  With three requested pairs
(2024-01..2024-03, category yellow) where the second request raises, the
exception escapes `download_nyc_taxi_data` and no partial result is
returned, contradicting both "the fetch continues with the next partition"
and "no exception escapes the overall fetch call". -/
theorem c4_counterexample :
    download_nyc_taxi_data ⟨2024, 1, 1⟩ ⟨2024, 3, 1⟩ ["yellow"]
      (fun u =>
        if u = "https://d37ci6vzurychx.cloudfront.net/trip-data/yellow_tripdata_2024-02.parquet"
        then .error "connection reset" else .ok 200)
      = .error "connection reset" := rfl

/-- Claim C4 (amended): failure isolation holds for HTTP-level failures
only.  When every request yields an HTTP response (no transport error), no
exception escapes the fetch: it returns normally, having persisted exactly
the pairs answered 200 and recorded one failure per pair answered with any
other status — a non-2xx (indeed any non-200) response never aborts the
range fetch.  A transport error, by contrast, propagates
(`c4_counterexample`). -/
theorem c4_amended_http_failure_isolation (s e : Date) (dtypes : List String)
    (web : Web) (hweb : ∀ u, ∃ st, web u = .ok st) :
    ∃ fs, download_nyc_taxi_data s e dtypes web = .ok fs
      ∧ fs.saved.length =
          ((enumMonths e (monthIndex e + 2 - monthIndex s) s).map
            (fun d => dtypes.countP (fun t => is200 web d t))).sum
      ∧ fs.failures.length =
          ((enumMonths e (monthIndex e + 2 - monthIndex s) s).map
            (fun d => dtypes.countP (fun t => ! is200 web d t))).sum := by
  obtain ⟨fs, hrun, hsv, hfl⟩ := downloadLoop_no_transport web dtypes e hweb
    (monthIndex e + 2 - monthIndex s) s ⟨[], []⟩
  exact ⟨fs, hrun, by simpa using hsv, by simpa using hfl⟩

theorem c4_witness :
    ∃ fs, download_nyc_taxi_data ⟨2024, 1, 1⟩ ⟨2024, 3, 1⟩ ["yellow"]
        (fun u =>
          if u = "https://d37ci6vzurychx.cloudfront.net/trip-data/yellow_tripdata_2024-02.parquet"
          then .ok 500 else .ok 200) = .ok fs
      ∧ fs.saved.length = 2 ∧ fs.failures.length = 1 := by
  obtain ⟨fs, hrun, hsv, hfl⟩ :=
    c4_amended_http_failure_isolation ⟨2024, 1, 1⟩ ⟨2024, 3, 1⟩ ["yellow"]
      (fun u =>
        if u = "https://d37ci6vzurychx.cloudfront.net/trip-data/yellow_tripdata_2024-02.parquet"
        then .ok 500 else .ok 200)
      (fun u => by
        by_cases h :
          u = "https://d37ci6vzurychx.cloudfront.net/trip-data/yellow_tripdata_2024-02.parquet"
        · exact ⟨500, by simp [h]⟩
        · exact ⟨200, by simp [h]⟩)
  exact ⟨fs, hrun, by rw [hsv]; decide, by rw [hfl]; decide⟩

end DataPrep
